import Mathlib

/-
Verification of the core logic of the AI Cinematic Scene Generator
front end: the data-URL codec, the history store, the prompt assembler,
the generation loop and the list-editing handlers, shallowly embedded
from the TypeScript sources.
-/

set_option maxRecDepth 8192

namespace SceneGen

/-- Decoded image data: the record produced by `parseDataUrl` in
`src/components/ImageUploader.tsx`.  In JavaScript the `base64` field can
be `undefined` when the data URL has no comma-separated payload
(`parts[1]` is out of range), so it is modelled as an `Option`. -/
structure ImageFile where
  base64 : Option String
  mimeType : String
  deriving DecidableEq, Inhabited

/-- JavaScript `dataUrl.split(',')` on the underlying character list:
split at every comma, keep empty pieces, always return at least one
piece. -/
def splitOnComma : List Char → List (List Char)
  | [] => [[]]
  | c :: rest =>
    if c = ',' then [] :: splitOnComma rest
    else
      match splitOnComma rest with
      | [] => [[c]]
      | h :: t => (c :: h) :: t

/-- Whether the JavaScript regex metacharacter for an arbitrary character
(a dot, with no flags) matches a given character: everything except the
four line terminators. -/
def jsDotMatches (c : Char) : Bool :=
  c != '\n' && c != '\r' && c != Char.ofNat 0x2028 && c != Char.ofNat 0x2029

/-- Lazy capture group of the regex `:(.*?);` once a colon has been
consumed: take characters up to the first semicolon; fail if a line
terminator (not matched by the dot) or the end of input comes first. -/
def grabGroup : List Char → Option (List Char)
  | [] => none
  | c :: rest =>
    if c = ';' then some []
    else if jsDotMatches c then (grabGroup rest).map (c :: ·)
    else none

/-- Leftmost match of the JavaScript regex `:(.*?);`, returning the
capture group: scan from the left for a colon, try the lazy group there,
and on failure resume scanning to the right of that colon. -/
def matchColonSemi : List Char → Option (List Char)
  | [] => none
  | c :: rest =>
    if c = ':' then
      match grabGroup rest with
      | some g => some g
      | none => matchColonSemi rest
    else matchColonSemi rest

/-- The function `parseDataUrl` of `src/components/ImageUploader.tsx`:
split on commas, run the regex `:(.*?);` over the part before the first
comma, throw (here: `none`) when it does not match, and otherwise return
the record with `mimeType` the capture group and `base64` the second
split part, which is `undefined` (here: `none`) when the input has no
comma. -/
def parseDataUrl (dataUrl : String) : Option ImageFile :=
  match splitOnComma dataUrl.data with
  | [] => none
  | p0 :: rest =>
    match matchColonSemi p0 with
    | none => none
    | some g => some { base64 := (rest.head?).map String.mk, mimeType := String.mk g }

/-- Rendering an `ImageFile` back to a data URL, as done by the template
literals in `ImageUploader`, `HistoryPanel` and `handleViewHistoryItem`.
A JavaScript template literal prints an undefined field as the word
`undefined`. -/
def encodeImage (img : ImageFile) : String :=
  "data:" ++ (img.mimeType ++ (";base64," ++
    (match img.base64 with
     | some b => b
     | none => "undefined")))

/-- JavaScript `Array.prototype.join(sep)`. -/
def jsJoin (sep : String) : List String → String
  | [] => ""
  | [x] => x
  | x :: xs => x ++ (sep ++ jsJoin sep xs)

/-- Whether JavaScript `String.prototype.trim` strips a character (the
whitespace and line-terminator characters relevant here). -/
def jsWhitespace (c : Char) : Bool :=
  c == ' ' || c == '\t' || c == '\n' || c == '\r' || c == '\x0b' || c == '\x0c'

/-- JavaScript `s.trim()`: drop leading and trailing whitespace. -/
def jsTrim (s : String) : String :=
  String.mk (((s.data.dropWhile jsWhitespace).reverse.dropWhile jsWhitespace).reverse)

/-- JavaScript `s.split(sep)` for a one-character separator. -/
def splitOnChar (sep : Char) : List Char → List (List Char)
  | [] => [[]]
  | c :: rest =>
    if c = sep then [] :: splitOnChar sep rest
    else
      match splitOnChar sep rest with
      | [] => [[c]]
      | h :: t => (c :: h) :: t

/-- JavaScript `Array.prototype.join` with a one-character separator, on
character lists. -/
def joinChar (sep : Char) : List (List Char) → List Char
  | [] => []
  | [x] => x
  | x :: xs => x ++ sep :: joinChar sep xs

/-- The helper `getNameFromFilename` of `src/unnamed/part_002`: an empty
(falsy) file name gives the empty string; otherwise drop the last
dot-separated piece when there are at least two (the extension), rejoin
with dots, and replace every underscore and every hyphen with a space
(the source's global one-character regex replaces). -/
def getNameFromFilename (fileName : String) : String :=
  if fileName = "" then ""
  else
    let nameParts := splitOnChar '.' fileName.data
    let nameParts := if nameParts.length > 1 then nameParts.dropLast else nameParts
    String.mk (((joinChar '.' nameParts).map fun c => if c = '_' then ' ' else c).map
      fun c => if c = '-' then ' ' else c)

/-- JavaScript `s.startsWith(pre)` on character lists. -/
def charsStartWith : List Char → List Char → Bool
  | [], _ => true
  | _ :: _, [] => false
  | p :: ps, c :: cs => p == c && charsStartWith ps cs

/-- The `Character` record of the app (also used for objects/props and
for the edit-tab reference lists): numeric id, display name, optional
attached image. -/
structure Character where
  id : Nat
  name : String
  image : Option ImageFile
  deriving DecidableEq, Inhabited

/-- Truthiness of the optional `fileName` argument of the upload
handlers: a JavaScript string is falsy exactly when it is empty, and
`undefined` (here `none`) is falsy. -/
def fileNameTruthy : Option String → Bool
  | none => false
  | some fn => fn != ""

/-- The handler `handleCharacterImageUpload` of `src/unnamed/part_002`:
on the element with the matching id, set `image`, and recompute `name` as
`getNameFromFilename(fileName)` when both an image and a truthy file name
are supplied, else keep `c.name` when truthy, else fall back to the
positional placeholder built from `findIndex` plus one.  (JavaScript
`findIndex` yields minus one only when the id is absent, in which case
this branch is never taken; `findIdx` is its faithful image on the
reachable paths.) -/
def handleCharacterImageUpload (id : Nat) (image : Option ImageFile)
    (fileName : Option String) (prev : List Character) : List Character :=
  prev.map fun c =>
    if c.id = id then
      let newName :=
        if image.isSome && fileNameTruthy fileName then
          getNameFromFilename (fileName.getD "")
        else if c.name != "" then c.name
        else "Character " ++ toString (prev.findIdx (fun ch => ch.id == id) + 1)
      { c with image := image, name := newName }
    else c

/-- The handler `handleElementImageUpload` of `src/unnamed/part_002`:
identical to `handleCharacterImageUpload` except for the placeholder
wording. -/
def handleElementImageUpload (id : Nat) (image : Option ImageFile)
    (fileName : Option String) (prev : List Character) : List Character :=
  prev.map fun c =>
    if c.id = id then
      let newName :=
        if image.isSome && fileNameTruthy fileName then
          getNameFromFilename (fileName.getD "")
        else if c.name != "" then c.name
        else "Object " ++ toString (prev.findIdx (fun el => el.id == id) + 1)
      { c with image := image, name := newName }
    else c

/-- The handler `handleEditCharImageUpload` of `src/unnamed/part_002`:
unlike the generate-tab handlers it has no `c.name` fallback, so whenever
image or file name is missing the name is reset to the positional
placeholder. -/
def handleEditCharImageUpload (id : Nat) (image : Option ImageFile)
    (fileName : Option String) (prev : List Character) : List Character :=
  prev.map fun c =>
    if c.id = id then
      let newName :=
        if image.isSome && fileNameTruthy fileName then
          getNameFromFilename (fileName.getD "")
        else "Character " ++ toString (prev.findIdx (fun ch => ch.id == id) + 1)
      { c with image := image, name := newName }
    else c

/-- The `HistoryItem` record of the app. -/
structure HistoryItem where
  id : String
  image : ImageFile
  prompt : String
  createdAt : String
  deriving DecidableEq, Inhabited

/-- The history cap `MAX_HISTORY_ITEMS` of `src/unnamed/part_002`. -/
def MAX_HISTORY_ITEMS : Nat := 20

/-- The handler `handleAddToHistory` of `src/unnamed/part_002`.  The two
clock reads `Date.now()` and `new Date().toISOString()` are modelled as
the explicit arguments `nowMs` and `nowIso`; the source's `type` argument
is named `kind` here.  When `parseDataUrl` throws, the surrounding catch
only logs, so the history is returned unchanged; otherwise the fresh item
is consed on and the list truncated to the cap. -/
def handleAddToHistory (image : String) (prompt : String) (kind : String)
    (nowMs : Nat) (nowIso : String) (prev : List HistoryItem) : List HistoryItem :=
  match parseDataUrl image with
  | none => prev
  | some img =>
      ({ id := kind ++ ("-" ++ toString nowMs), image := img,
         prompt := prompt, createdAt := nowIso } :: prev).take MAX_HISTORY_ITEMS

/-- One invocation of `handleAddToHistory`: its arguments together with
the clock readings at that call. -/
structure AddInput where
  image : String
  prompt : String
  kind : String
  nowMs : Nat
  nowIso : String
  deriving DecidableEq, Inhabited

/-- A sequence of `handleAddToHistory` calls applied left to right. -/
def runAdds (inputs : List AddInput) (hist : List HistoryItem) : List HistoryItem :=
  inputs.foldl
    (fun h inp => handleAddToHistory inp.image inp.prompt inp.kind inp.nowMs inp.nowIso h) hist

/-- The history item a successful `handleAddToHistory` call constructs
from its arguments. -/
def mkHistoryItem (inp : AddInput) : HistoryItem :=
  { id := inp.kind ++ ("-" ++ toString inp.nowMs)
    image := (parseDataUrl inp.image).get!
    prompt := inp.prompt
    createdAt := inp.nowIso }

/-- The observable outcome of `handleGenerateClick`: the final
`generatedImages`, `history` and `genError` states. -/
structure GenOutcome where
  generatedImages : List String
  history : List HistoryItem
  genError : Option String
  deriving DecidableEq, Inhabited

/-- The sequential for-loop of `handleGenerateClick`: `svc` abstracts the
external `generateStoryImage` service (an opaque collaborator per the
spec), indexed by loop iteration, and `nowMs` and `nowIso` are the clock
readings inside `handleAddToHistory` at each iteration.  A successful
call appends its image to the result list and records it in history; a
failing call stops the loop and stores the error message. -/
def genLoop (svc : Nat → Except String String) (nowMs : Nat → Nat)
    (nowIso : Nat → String) (prompt : String) :
    Nat → Nat → List String → List HistoryItem → GenOutcome
  | _, 0, acc, hist => { generatedImages := acc, history := hist, genError := none }
  | i, n + 1, acc, hist =>
    match svc i with
    | .error e => { generatedImages := acc, history := hist, genError := some e }
    | .ok img =>
        genLoop svc nowMs nowIso prompt (i + 1) n (acc ++ [img])
          (handleAddToHistory img prompt "gen" (nowMs i) (nowIso i) hist)

/-- The handler `handleGenerateClick` of `src/unnamed/part_002`: it
clears the error and the result list and then runs the sequential loop
`numberOfImages` times.  The entry guard and the loading flag are UI
state, and the reference images passed to the service do not influence
the control flow modelled here. -/
def handleGenerateClick (svc : Nat → Except String String) (nowMs : Nat → Nat)
    (nowIso : Nat → String) (generatedPrompt : String) (numberOfImages : Nat)
    (history : List HistoryItem) : GenOutcome :=
  genLoop svc nowMs nowIso generatedPrompt 0 numberOfImages [] history

/-- A raw browser file as seen by `handleAdditionalElementsFilesAdd`: its
name, its declared MIME type, and the data URL the `FileReader` produces
for it (`none` models a failed or non-string read). -/
structure JsFile where
  name : String
  type : String
  dataUrl : Option String
  deriving DecidableEq, Inhabited

/-- The value a per-file promise of `handleAdditionalElementsFilesAdd`
resolves with. -/
structure NamedImage where
  name : String
  image : ImageFile
  deriving DecidableEq, Inhabited

/-- The per-file promise body of `handleAdditionalElementsFilesAdd`: a
failed read rejects, a data URL that `parseDataUrl` cannot parse rejects,
and otherwise the promise resolves with the parsed image and the name
derived from the file name.  (The two rejection reasons are collapsed to
message strings; the catch handler ignores the reason.) -/
def decodeFile (f : JsFile) : Except String NamedImage :=
  match f.dataUrl with
  | none => .error "Failed to read file."
  | some u =>
    match parseDataUrl u with
    | none => .error "Invalid data URL"
    | some img => .ok { name := getNameFromFilename f.name, image := img }

/-- JavaScript `Promise.all`: succeeds with all values in input order, or
fails when any constituent fails (which reason surfaces is irrelevant
downstream, so the first in list order is taken). -/
def promiseAll : List (Except String α) → Except String (List α)
  | [] => .ok []
  | .error e :: _ => .error e
  | .ok a :: rest => (promiseAll rest).map (a :: ·)

/-- The fixed error message the catch handler of
`handleAdditionalElementsFilesAdd` stores in `genError`. -/
def bulkErrorMsg : String :=
  "One or more images could not be processed. Please try again."

/-- The handler `handleAdditionalElementsFilesAdd` of
`src/unnamed/part_002` as a state transformer: it returns the new
`additionalElements` list together with the error this operation raises
(`none` when it raises none; a success leaves the previous `genError`
untouched).  The source evaluates `Date.now()` inside each map callback
(`id: Date.now() + index`), so the clock read of the callback at index i
is the argument `now i`, and the element built from the i-th decoded
file gets id `now i + i`. -/
def handleAdditionalElementsFilesAdd (now : Nat → Nat) (files : List JsFile)
    (prev : List Character) : List Character × Option String :=
  let imgFiles := files.filter (fun f => charsStartWith "image/".data f.type.data)
  match promiseAll (imgFiles.map decodeFile) with
  | .error _ => (prev, some bulkErrorMsg)
  | .ok ds =>
      (prev ++ ds.enum.map (fun p => { id := now p.1 + p.1, name := p.2.name, image := p.2.image }),
       none)

/-- The `characterNames` and `elementNames` computation of the
prompt-builder effect of `src/unnamed/part_002`: keep the elements having
an attached image and a non-blank trimmed name, render each as its
trimmed name in parentheses, and join with commas. -/
def imagedNames (elems : List Character) : String :=
  jsJoin ", "
    ((elems.filter fun c => c.image.isSome && jsTrim c.name != "").map
      fun c => "(" ++ (jsTrim c.name ++ ")"))

/-- The `promptParts` array of the prompt-builder effect of
`src/unnamed/part_002` (generate tab); `aspect` models the source's
aspect-ratio value. -/
def promptParts (characters additionalElements : List Character)
    (sceneDescription aspect lightingStyle cameraPerspective : String)
    (styleImage sceneLocationImage : Option ImageFile) : List String :=
  [ if sceneDescription != "" then
      "A cinematic scene with a strict aspect ratio of " ++
        (aspect ++ (": " ++ (sceneDescription ++ ".")))
    else
      "A cinematic scene with a strict aspect ratio of " ++ (aspect ++ "."),
    if imagedNames characters != "" then
      "Featuring characters: " ++ (imagedNames characters ++ ".")
    else "",
    if imagedNames additionalElements != "" then
      "The scene also includes these key objects/props: " ++
        (imagedNames additionalElements ++ ".")
    else "",
    if sceneLocationImage.isSome then
      "Use the provided \"Scene Location\" image as the background for the scene."
    else "",
    "The lighting should be " ++ (lightingStyle ++ "."),
    "Use a " ++ (cameraPerspective ++ "."),
    if imagedNames characters != "" || imagedNames additionalElements != "" ||
        styleImage.isSome || sceneLocationImage.isSome then
      "Use the provided images for character, object, location, and style consistency."
    else "" ]

/-- The final `newPrompt` of the prompt-builder effect: the non-empty
(truthy) parts joined with single spaces. -/
def buildPrompt (characters additionalElements : List Character)
    (sceneDescription aspect lightingStyle cameraPerspective : String)
    (styleImage sceneLocationImage : Option ImageFile) : String :=
  jsJoin " "
    ((promptParts characters additionalElements sceneDescription aspect
        lightingStyle cameraPerspective styleImage sceneLocationImage).filter
      (fun p => p != ""))

/-- A concrete character with an attached image, used as test data. -/
def heroChar : Character :=
  { id := 1, name := "Hero", image := some { base64 := some "a", mimeType := "image/png" } }

/-- A concrete object element with an attached image, used as test
data. -/
def swordObj : Character :=
  { id := 2, name := "Sword", image := some { base64 := some "b", mimeType := "image/png" } }

/-- A concrete image-typed file with a valid data URL, used as test
data. -/
def pngFile : JsFile :=
  { name := "a_b.png", type := "image/png", dataUrl := some "data:image/png;base64,xx" }

/-- A concrete non-image file, used as test data (bulk add filters it
out). -/
def txtFile : JsFile :=
  { name := "c.txt", type := "text/plain", dataUrl := some "data:text/plain;base64,yy" }

/-- A second concrete image-typed file with a valid data URL, used as
test data. -/
def jpegFile : JsFile :=
  { name := "d-e.jpg", type := "image/jpeg", dataUrl := some "data:image/jpeg;base64,zz" }

/-- A concrete batch of twenty-one history-add calls, used to exercise
the history store on more adds than the cap. -/
def sampleAdds : List AddInput :=
  List.replicate 21
    { image := "data:image/png;base64,abc", prompt := "p", kind := "gen",
      nowMs := 7, nowIso := "t" }

theorem mem_of_mem_splitOnComma :
    ∀ (l x : List Char), x ∈ splitOnComma l → ∀ c ∈ x, c ∈ l := by
  intro l
  induction l with
  | nil =>
    intro x hx c hc
    simp [splitOnComma] at hx
    subst hx; simp at hc
  | cons c0 rest ih =>
    intro x hx c hc
    by_cases h0 : c0 = ','
    · subst h0
      simp only [splitOnComma, if_pos rfl] at hx
      rcases List.mem_cons.mp hx with rfl | hx'
      · simp at hc
      · exact List.mem_cons_of_mem _ (ih x hx' c hc)
    · simp only [splitOnComma, if_neg h0] at hx
      rcases hsp : splitOnComma rest with _ | ⟨h, t⟩
      · rw [hsp] at hx
        simp at hx
        subst hx
        simp at hc
        subst hc
        exact List.mem_cons_self _ _
      · rw [hsp] at hx
        simp at hx
        rcases hx with rfl | hx'
        · rcases List.mem_cons.mp hc with rfl | hc'
          · exact List.mem_cons_self _ _
          · exact List.mem_cons_of_mem _
              (ih h (hsp ▸ List.mem_cons_self _ _) c hc')
        · exact List.mem_cons_of_mem _
            (ih x (hsp ▸ List.mem_cons_of_mem _ hx') c hc)

theorem grabGroup_eq_none_of_no_semi :
    ∀ (l : List Char), ';' ∉ l → grabGroup l = none := by
  intro l
  induction l with
  | nil => intro _; rfl
  | cons c rest ih =>
    intro h
    have hc : c ≠ ';' := fun e => h (e ▸ List.mem_cons_self _ _)
    have hr : ';' ∉ rest := fun m => h (List.mem_cons_of_mem _ m)
    simp [grabGroup, hc, ih hr]

theorem matchColonSemi_eq_none_of_no_semi :
    ∀ (l : List Char), ';' ∉ l → matchColonSemi l = none := by
  intro l
  induction l with
  | nil => intro _; rfl
  | cons c rest ih =>
    intro h
    have hr : ';' ∉ rest := fun m => h (List.mem_cons_of_mem _ m)
    simp [matchColonSemi, grabGroup_eq_none_of_no_semi rest hr, ih hr]

/-- C3 counterexample: the input `data:image/png;base64` lacks the comma
delimiter, yet `parseDataUrl` does not fail — it returns a partial record
whose `base64` payload is absent (`undefined` in JavaScript), refuting
the claim that every comma-less input fails with a format error. -/
theorem parse_missing_comma_succeeds :
    (',' ∉ "data:image/png;base64".data) ∧
    parseDataUrl "data:image/png;base64"
      = some { base64 := none, mimeType := "image/png" } := by
  decide

/-- C3 (amended): every input string lacking the semicolon delimiter
makes `parseDataUrl` fail (the regex cannot match); an input lacking only
the comma can instead succeed with an absent payload. -/
theorem parse_fails_without_semicolon (s : String) (h : ';' ∉ s.data) :
    parseDataUrl s = none := by
  rcases hsp : splitOnComma s.data with _ | ⟨p0, rest⟩
  · simp [parseDataUrl, hsp]
  · have hp0 : ';' ∉ p0 := fun m =>
      h (mem_of_mem_splitOnComma s.data p0 (hsp ▸ List.mem_cons_self _ _) _ m)
    simp [parseDataUrl, hsp, matchColonSemi_eq_none_of_no_semi p0 hp0]

/-- Witness for C3 (amended) at the concrete input `hello,world`. -/
theorem parse_fails_without_semicolon_witness :
    (';' ∉ "hello,world".data) ∧ parseDataUrl "hello,world" = none :=
  ⟨by decide, parse_fails_without_semicolon "hello,world" (by decide)⟩

/-- C7: with an empty scene, no characters, no objects, no location and
no style image, lighting `L`, camera `C` and aspect ratio `16:9`, the
assembled prompt is exactly the aspect-ratio clause, the lighting clause
and the camera clause joined by single spaces, with no leading or
trailing whitespace and no Featuring or consistency clause. -/
theorem minimal_prompt :
    buildPrompt [] [] "" "16:9" "L" "C" none none
      = "A cinematic scene with a strict aspect ratio of 16:9. The lighting should be L. Use a C." := by
  decide

/-- C9: when the service call succeeds but returns a string that is not a
parseable data URL, the image is still appended to the visible result
list, while the history add is silently skipped, so the history is
unchanged and no error is reported. -/
theorem unparseable_success_skips_history (svc : Nat → Except String String)
    (nowMs : Nat → Nat) (nowIso : Nat → String) (prompt : String)
    (hist0 : List HistoryItem) (img : String)
    (h0 : svc 0 = .ok img) (hbad : parseDataUrl img = none) :
    (handleGenerateClick svc nowMs nowIso prompt 1 hist0).generatedImages = [img] ∧
    (handleGenerateClick svc nowMs nowIso prompt 1 hist0).history = hist0 ∧
    (handleGenerateClick svc nowMs nowIso prompt 1 hist0).genError = none := by
  simp [handleGenerateClick, genLoop, h0, handleAddToHistory, hbad]

/-- Witness for C9 at a concrete service returning an unparseable
string. -/
theorem unparseable_success_skips_history_witness :
    ((fun _ : Nat => (Except.ok "garbage" : Except String String)) 0 = .ok "garbage") ∧
    parseDataUrl "garbage" = none ∧
    ((handleGenerateClick (fun _ => .ok "garbage") (fun _ => 3) (fun _ => "t") "p" 1 []).generatedImages
        = ["garbage"] ∧
      (handleGenerateClick (fun _ => .ok "garbage") (fun _ => 3) (fun _ => "t") "p" 1 []).history = [] ∧
      (handleGenerateClick (fun _ => .ok "garbage") (fun _ => 3) (fun _ => "t") "p" 1 []).genError = none) :=
  ⟨rfl, by decide,
    unparseable_success_skips_history (fun _ => .ok "garbage") (fun _ => 3) (fun _ => "t")
      "p" [] "garbage" rfl (by decide)⟩

/-- C2: in generate mode with three requested images, if the first
service call succeeds (with a parseable image) and the second fails, the
loop aborts: the result list holds exactly the one collected image, the
error state carries the service failure message verbatim, and the history
is the previous history with exactly the one new entry tagged `gen` at
its head (truncated to the cap); nothing is rolled back. -/
theorem generate_partial_failure (svc : Nat → Except String String)
    (nowMs : Nat → Nat) (nowIso : Nat → String) (prompt : String)
    (hist0 : List HistoryItem) (img1 e : String)
    (h0 : svc 0 = .ok img1) (h1 : svc 1 = .error e)
    (hp : (parseDataUrl img1).isSome) :
    (handleGenerateClick svc nowMs nowIso prompt 3 hist0).generatedImages = [img1] ∧
    (handleGenerateClick svc nowMs nowIso prompt 3 hist0).genError = some e ∧
    (handleGenerateClick svc nowMs nowIso prompt 3 hist0).history
      = ({ id := "gen" ++ ("-" ++ toString (nowMs 0)),
           image := (parseDataUrl img1).get!, prompt := prompt,
           createdAt := nowIso 0 } :: hist0).take MAX_HISTORY_ITEMS ∧
    (hist0.length < MAX_HISTORY_ITEMS →
      (handleGenerateClick svc nowMs nowIso prompt 3 hist0).history.length
        = hist0.length + 1) := by
  obtain ⟨img, himg⟩ := Option.isSome_iff_exists.mp hp
  have hout : handleGenerateClick svc nowMs nowIso prompt 3 hist0
      = { generatedImages := [img1],
          history := ({ id := "gen" ++ ("-" ++ toString (nowMs 0)), image := img,
                        prompt := prompt, createdAt := nowIso 0 } :: hist0).take MAX_HISTORY_ITEMS,
          genError := some e } := by
    simp [handleGenerateClick, genLoop, h0, h1, handleAddToHistory, himg]
  refine ⟨by rw [hout], by rw [hout], ?_, ?_⟩
  · rw [hout, himg]
    rfl
  · intro hlen
    rw [hout]
    simp [List.length_take]
    omega

/-- Witness for C2 at a concrete service that succeeds once and then
fails. -/
theorem generate_partial_failure_witness :
    ((fun i : Nat => if i = 0 then (Except.ok "data:image/png;base64,abc" : Except String String)
        else Except.error "boom") 0 = .ok "data:image/png;base64,abc") ∧
    ((fun i : Nat => if i = 0 then (Except.ok "data:image/png;base64,abc" : Except String String)
        else Except.error "boom") 1 = .error "boom") ∧
    (parseDataUrl "data:image/png;base64,abc").isSome ∧
    ((handleGenerateClick
        (fun i => if i = 0 then .ok "data:image/png;base64,abc" else .error "boom")
        (fun _ => 7) (fun _ => "t") "p" 3 []).generatedImages
      = ["data:image/png;base64,abc"] ∧
      (handleGenerateClick
        (fun i => if i = 0 then .ok "data:image/png;base64,abc" else .error "boom")
        (fun _ => 7) (fun _ => "t") "p" 3 []).genError = some "boom" ∧
      (handleGenerateClick
        (fun i => if i = 0 then .ok "data:image/png;base64,abc" else .error "boom")
        (fun _ => 7) (fun _ => "t") "p" 3 []).history
        = ({ id := "gen" ++ ("-" ++ toString 7),
             image := (parseDataUrl "data:image/png;base64,abc").get!, prompt := "p",
             createdAt := "t" } :: ([] : List HistoryItem)).take MAX_HISTORY_ITEMS ∧
      (([] : List HistoryItem).length < MAX_HISTORY_ITEMS →
        (handleGenerateClick
          (fun i => if i = 0 then .ok "data:image/png;base64,abc" else .error "boom")
          (fun _ => 7) (fun _ => "t") "p" 3 []).history.length
          = ([] : List HistoryItem).length + 1)) :=
  ⟨rfl, rfl, by decide,
    generate_partial_failure
      (fun i => if i = 0 then .ok "data:image/png;base64,abc" else .error "boom")
      (fun _ => 7) (fun _ => "t") "p" [] "data:image/png;base64,abc" "boom"
      rfl rfl (by decide)⟩

theorem take_cons_take {α : Type} (x : α) (l : List α) (n : Nat) :
    (x :: l.take n).take n = (x :: l).take n := by
  cases n with
  | zero => simp
  | succ m =>
    simp [List.take_succ_cons, List.take_take, Nat.min_eq_left (Nat.le_succ m)]

theorem runAdds_take (inputs : List AddInput) :
    ∀ l : List HistoryItem,
      (∀ inp ∈ inputs, (parseDataUrl inp.image).isSome) →
      runAdds inputs (l.take MAX_HISTORY_ITEMS)
        = ((inputs.map mkHistoryItem).reverse ++ l).take MAX_HISTORY_ITEMS := by
  induction inputs with
  | nil => intro l _; simp [runAdds]
  | cons a rest ih =>
    intro l h
    have ha : (parseDataUrl a.image).isSome := h a (List.mem_cons_self _ _)
    obtain ⟨img, himg⟩ := Option.isSome_iff_exists.mp ha
    have hstep :
        handleAddToHistory a.image a.prompt a.kind a.nowMs a.nowIso (l.take MAX_HISTORY_ITEMS)
          = (mkHistoryItem a :: l).take MAX_HISTORY_ITEMS := by
      simp only [handleAddToHistory, himg, mkHistoryItem, Option.get!]
      exact take_cons_take _ _ _
    have hrest : ∀ inp ∈ rest, (parseDataUrl inp.image).isSome :=
      fun inp hm => h inp (List.mem_cons_of_mem _ hm)
    calc runAdds (a :: rest) (l.take MAX_HISTORY_ITEMS)
        = runAdds rest ((mkHistoryItem a :: l).take MAX_HISTORY_ITEMS) := by
          simp only [runAdds, List.foldl_cons, hstep]
      _ = ((rest.map mkHistoryItem).reverse ++ (mkHistoryItem a :: l)).take MAX_HISTORY_ITEMS :=
          ih _ hrest
      _ = (((a :: rest).map mkHistoryItem).reverse ++ l).take MAX_HISTORY_ITEMS := by
          simp

/-- C1: a sequence of history adds with parseable images, run from the
empty store, always yields the most-recently-added entries first,
truncated to the cap of twenty; the length never exceeds the cap, and
after more than twenty adds it is exactly twenty. -/
theorem history_store_invariant (inputs : List AddInput)
    (h : ∀ inp ∈ inputs, (parseDataUrl inp.image).isSome) :
    runAdds inputs []
        = ((inputs.map mkHistoryItem).reverse).take MAX_HISTORY_ITEMS ∧
    (runAdds inputs []).length ≤ MAX_HISTORY_ITEMS ∧
    (MAX_HISTORY_ITEMS < inputs.length →
      (runAdds inputs []).length = MAX_HISTORY_ITEMS) := by
  have h0 : runAdds inputs []
      = ((inputs.map mkHistoryItem).reverse).take MAX_HISTORY_ITEMS := by
    have := runAdds_take inputs [] h
    simpa using this
  refine ⟨h0, ?_, ?_⟩
  · rw [h0]
    simp [List.length_take]
  · intro hlen
    rw [h0]
    simp [List.length_take]
    omega

/-- Witness for C1: twenty-one identical adds of a parseable image leave
exactly the twenty most recent entries. -/
theorem history_store_invariant_witness :
    (∀ inp ∈ sampleAdds, (parseDataUrl inp.image).isSome) ∧
    (runAdds sampleAdds []
        = ((sampleAdds.map mkHistoryItem).reverse).take MAX_HISTORY_ITEMS ∧
      (runAdds sampleAdds []).length ≤ MAX_HISTORY_ITEMS ∧
      (MAX_HISTORY_ITEMS < sampleAdds.length →
        (runAdds sampleAdds []).length = MAX_HISTORY_ITEMS)) :=
  ⟨by decide, history_store_invariant sampleAdds (by decide)⟩

theorem promiseAll_error {α : Type} :
    ∀ (l : List (Except String α)),
      (∃ x ∈ l, ∃ e, x = Except.error e) →
      ∃ e, promiseAll l = Except.error e := by
  intro l
  induction l with
  | nil => rintro ⟨x, hx, _⟩; simp at hx
  | cons a rest ih =>
    rintro ⟨x, hx, e, he⟩
    rcases List.mem_cons.mp hx with rfl | hx'
    · subst he
      exact ⟨e, rfl⟩
    · cases a with
      | error e' => exact ⟨e', rfl⟩
      | ok v =>
        obtain ⟨e'', he''⟩ := ih ⟨x, hx', e, he⟩
        exact ⟨e'', by simp [promiseAll, he'', Except.map]⟩

/-- C5: if any file of the image-typed batch fails to decode, the whole
batch is abandoned: the element list is returned exactly as it was (no
partial mutation) and the single fixed error message is surfaced. -/
theorem bulk_add_abandons_batch (now : Nat → Nat) (files : List JsFile)
    (prev : List Character)
    (h : ∃ f ∈ files.filter (fun f => charsStartWith "image/".data f.type.data),
          ∃ e, decodeFile f = Except.error e) :
    handleAdditionalElementsFilesAdd now files prev = (prev, some bulkErrorMsg) := by
  obtain ⟨f, hf, e, he⟩ := h
  have hmem : decodeFile f
      ∈ (files.filter (fun f => charsStartWith "image/".data f.type.data)).map decodeFile :=
    List.mem_map_of_mem _ hf
  obtain ⟨e', he'⟩ := promiseAll_error _ ⟨decodeFile f, hmem, e, he⟩
  simp [handleAdditionalElementsFilesAdd, he']

/-- Witness for C5: a one-file batch whose data URL does not parse leaves
the list untouched and raises the fixed error. -/
theorem bulk_add_abandons_batch_witness :
    (∃ f ∈ ([{ name := "a.png", type := "image/png", dataUrl := some "garbage" }] :
          List JsFile).filter (fun f => charsStartWith "image/".data f.type.data),
        ∃ e, decodeFile f = Except.error e) ∧
    handleAdditionalElementsFilesAdd (fun _ => 5)
        [{ name := "a.png", type := "image/png", dataUrl := some "garbage" }]
        [{ id := 1, name := "kept", image := none }]
      = ([{ id := 1, name := "kept", image := none }], some bulkErrorMsg) :=
  ⟨⟨{ name := "a.png", type := "image/png", dataUrl := some "garbage" }, by decide,
      "Invalid data URL", by rfl⟩,
    bulk_add_abandons_batch (fun _ => 5) _ _
      ⟨{ name := "a.png", type := "image/png", dataUrl := some "garbage" }, by decide,
        "Invalid data URL", by rfl⟩⟩

/-- C10 counterexample: the source reads `Date.now()` inside each map
callback, so with a clock that regresses by one millisecond between the
two callbacks both appended elements get id 5 — the ids are not a single
per-batch timestamp plus the index and are not pairwise distinct by
construction. -/
theorem bulk_add_ids_can_collide :
    ((handleAdditionalElementsFilesAdd (fun i => 5 - i) [pngFile, jpegFile] []).1.map
        Character.id) = [5, 5] ∧
    ¬ (((handleAdditionalElementsFilesAdd (fun i => 5 - i) [pngFile, jpegFile] []).1.map
        Character.id)).Nodup := by
  decide

/-- C10 (amended): when the whole batch decodes, the new elements are
appended after the existing ones, in the order of the (image-typed)
input file sequence, and the element built from the i-th decoded file
gets id equal to the clock value read in its own map callback plus i;
these ids are pairwise distinct whenever the per-callback clock reads
are non-decreasing, not by construction alone. -/
theorem bulk_add_ids_ordered (now : Nat → Nat) (files : List JsFile)
    (prev : List Character) (ds : List NamedImage)
    (h : promiseAll
          ((files.filter (fun f => charsStartWith "image/".data f.type.data)).map decodeFile)
        = Except.ok ds)
    (hmono : ∀ i j, i ≤ j → now i ≤ now j) :
    (handleAdditionalElementsFilesAdd now files prev).1
        = prev ++ ds.enum.map
            (fun p => { id := now p.1 + p.1, name := p.2.name, image := p.2.image }) ∧
    (((handleAdditionalElementsFilesAdd now files prev).1.drop prev.length).map Character.id)
        = (List.range ds.length).map (fun i => now i + i) ∧
    (((handleAdditionalElementsFilesAdd now files prev).1.drop prev.length).map Character.name)
        = ds.map NamedImage.name ∧
    (((handleAdditionalElementsFilesAdd now files prev).1.drop prev.length).map Character.id).Nodup := by
  have h1 : (handleAdditionalElementsFilesAdd now files prev).1
      = prev ++ ds.enum.map
          (fun p => { id := now p.1 + p.1, name := p.2.name, image := p.2.image }) := by
    simp [handleAdditionalElementsFilesAdd, h]
  have h2 : (handleAdditionalElementsFilesAdd now files prev).1.drop prev.length
      = ds.enum.map (fun p => ({ id := now p.1 + p.1, name := p.2.name, image := p.2.image } : Character)) := by
    rw [h1, List.drop_left]
  have hid : (((handleAdditionalElementsFilesAdd now files prev).1.drop prev.length).map Character.id)
      = (List.range ds.length).map (fun i => now i + i) := by
    rw [h2, List.map_map, ← List.enum_map_fst ds, List.map_map]
    rfl
  refine ⟨h1, hid, ?_, ?_⟩
  · rw [h2, List.map_map]
    have hc : (Character.name ∘ fun p : Nat × NamedImage =>
        ({ id := now p.1 + p.1, name := p.2.name, image := p.2.image } : Character))
        = NamedImage.name ∘ Prod.snd := rfl
    rw [hc, ← List.map_map, List.enum_map_snd]
  · rw [hid]
    refine (List.nodup_range _).map fun a b hab => ?_
    rcases Nat.lt_trichotomy a b with hlt | heq | hgt
    · have := hmono a b (Nat.le_of_lt hlt)
      omega
    · exact heq
    · have := hmono b a (Nat.le_of_lt hgt)
      omega

/-- Witness for C10 (amended): under the non-decreasing clock
`fun i => 100 + i`, a batch of two image files (and one filtered-out
text file) is appended in input order with the per-callback ids. -/
theorem bulk_add_ids_ordered_witness :
    (promiseAll
        ((([pngFile, txtFile, jpegFile] : List JsFile).filter
          (fun f => charsStartWith "image/".data f.type.data)).map decodeFile)
      = Except.ok
          [{ name := "a b", image := { base64 := some "xx", mimeType := "image/png" } },
            { name := "d e", image := { base64 := some "zz", mimeType := "image/jpeg" } }]) ∧
    (∀ i j, i ≤ j → (fun i => 100 + i) i ≤ (fun i => 100 + i) j) ∧
    ((handleAdditionalElementsFilesAdd (fun i => 100 + i) [pngFile, txtFile, jpegFile]
        [{ id := 1, name := "old", image := none }]).1
      = [{ id := 1, name := "old", image := none }] ++
          ([{ name := "a b", image := { base64 := some "xx", mimeType := "image/png" } },
            { name := "d e", image := { base64 := some "zz", mimeType := "image/jpeg" } }] :
            List NamedImage).enum.map
            (fun p => { id := (100 + p.1) + p.1, name := p.2.name, image := p.2.image })) :=
  ⟨by rfl, fun i j hij => Nat.add_le_add_left hij 100,
    (bulk_add_ids_ordered (fun i => 100 + i) [pngFile, txtFile, jpegFile]
      [{ id := 1, name := "old", image := none }]
      [{ name := "a b", image := { base64 := some "xx", mimeType := "image/png" } },
        { name := "d e", image := { base64 := some "zz", mimeType := "image/jpeg" } }]
      (by rfl) (fun i j hij => Nat.add_le_add_left hij 100)).1⟩

/-- C8 counterexample: on the edit-tab character list, clearing the
image of the element named `Hero` resets its name to the positional
placeholder `Character 1`, so the name is not left untouched. -/
theorem edit_clear_image_renames :
    (handleEditCharImageUpload 1 none none [heroChar]).map Character.name
      = ["Character 1"] ∧ ("Character 1" : String) ≠ "Hero" := by
  decide

/-- C8 (amended): on the generate-tab character and object lists,
clearing an element's image leaves its name unchanged provided the name
is non-empty (an empty name would be replaced by the positional
placeholder); the edit-tab lists instead always reset the name to the
placeholder. -/
theorem clear_image_keeps_nonempty_name (chars elems : List Character)
    (id : Nat) (fn : Option String)
    (h1 : ∀ c ∈ chars, c.name ≠ "") (h2 : ∀ e ∈ elems, e.name ≠ "") :
    (handleCharacterImageUpload id none fn chars).map Character.name
        = chars.map Character.name ∧
    (handleElementImageUpload id none fn elems).map Character.name
        = elems.map Character.name := by
  constructor
  · simp only [handleCharacterImageUpload, List.map_map]
    apply List.map_congr_left
    intro c hc
    by_cases hid : c.id = id
    · simp [hid, h1 c hc]
    · simp [hid]
  · simp only [handleElementImageUpload, List.map_map]
    apply List.map_congr_left
    intro c hc
    by_cases hid : c.id = id
    · simp [hid, h2 c hc]
    · simp [hid]

/-- Witness for C8 (amended) on concrete one-element lists. -/
theorem clear_image_keeps_nonempty_name_witness :
    (∀ c ∈ [heroChar], c.name ≠ "") ∧ (∀ e ∈ [swordObj], e.name ≠ "") ∧
    ((handleCharacterImageUpload 1 none none [heroChar]).map Character.name
        = [heroChar].map Character.name ∧
      (handleElementImageUpload 1 none none [swordObj]).map Character.name
        = [swordObj].map Character.name) :=
  ⟨by decide, by decide,
    clear_image_keeps_nonempty_name [heroChar] [swordObj] 1 none (by decide) (by decide)⟩

theorem append_str_ne_empty (a x : String) (ha : a.data ≠ []) : a ++ x ≠ "" := by
  intro he
  apply ha
  have h := congrArg String.data he
  rw [String.data_append] at h
  exact (List.append_eq_nil.mp h).1

theorem empty_str_ne_append (b y : String) (hb : b.data ≠ []) : "" ≠ b ++ y := by
  intro he
  apply hb
  have h := congrArg String.data he.symm
  rw [String.data_append] at h
  exact (List.append_eq_nil.mp h).1

theorem append_str_ne_append_of_head (a x b y : String) (c d : Char)
    (ha : a.data.head? = some c) (hb : b.data.head? = some d) (hcd : c ≠ d) :
    a ++ x ≠ b ++ y := by
  intro he
  have h : (a ++ x).data.head? = (b ++ y).data.head? := by rw [he]
  rw [String.data_append, String.data_append] at h
  rcases hA : a.data with _ | ⟨c', as⟩
  · rw [hA] at ha; simp at ha
  · rcases hB : b.data with _ | ⟨d', bs⟩
    · rw [hB] at hb; simp at hb
    · rw [hA] at ha h
      rw [hB] at hb h
      simp at ha hb h
      exact hcd (ha ▸ hb ▸ h)

theorem str_ne_append_of_head (L b y : String) (c d : Char)
    (hL : L.data.head? = some c) (hb : b.data.head? = some d) (hcd : c ≠ d) :
    L ≠ b ++ y := by
  intro he
  have h : L.data.head? = (b ++ y).data.head? := by rw [he]
  rw [String.data_append] at h
  rcases hB : b.data with _ | ⟨d', bs⟩
  · rw [hB] at hb; simp at hb
  · rw [hB] at h
    rw [hL] at h
    rw [hB] at hb
    simp at hb h
    exact hcd (h.trans hb)

theorem jsJoin_cons_ne_empty (sep x : String) (l : List String) (hx : x.data ≠ []) :
    jsJoin sep (x :: l) ≠ "" := by
  cases l with
  | nil =>
    intro he
    apply hx
    have : x = "" := by simpa [jsJoin] using he
    rw [this]
  | cons y ys =>
    intro he
    apply hx
    have h := congrArg String.data he
    rw [show jsJoin sep (x :: y :: ys) = x ++ (sep ++ jsJoin sep (y :: ys)) from rfl] at h
    rw [String.data_append] at h
    exact (List.append_eq_nil.mp h).1

theorem imagedNames_ne_empty (chars : List Character)
    (hq : chars.filter (fun c => c.image.isSome && jsTrim c.name != "") ≠ []) :
    imagedNames chars ≠ "" := by
  rcases hflt : chars.filter (fun c => c.image.isSome && jsTrim c.name != "") with _ | ⟨c, cs⟩
  · exact absurd hflt hq
  · rw [imagedNames, hflt, List.map_cons]
    apply jsJoin_cons_ne_empty
    rw [String.data_append]
    intro h
    exact absurd (List.append_eq_nil.mp h).1 (by decide)

/-- C6: the Featuring-characters clause of the assembled prompt parts
contains exactly the characters having both an attached image and a
non-blank trimmed name, in list order; when no character qualifies, no
part of the prompt is a Featuring-characters clause at all. -/
theorem featuring_clause_exact (chars elems : List Character)
    (scene aspect light cam : String) (sty loc : Option ImageFile) :
    ((chars.filter (fun c => c.image.isSome && jsTrim c.name != "") = []) →
      ∀ s ∈ (promptParts chars elems scene aspect light cam sty loc).filter (fun p => p != ""),
        ∀ t, s ≠ "Featuring characters: " ++ t) ∧
    ((chars.filter (fun c => c.image.isSome && jsTrim c.name != "") ≠ []) →
      ("Featuring characters: " ++
          (jsJoin ", " (((chars.filter (fun c => c.image.isSome && jsTrim c.name != "")).map
              (fun c => "(" ++ (jsTrim c.name ++ ")")))) ++ "."))
        ∈ (promptParts chars elems scene aspect light cam sty loc).filter (fun p => p != "")) := by
  constructor
  · intro hq s hs t
    have hN : imagedNames chars = "" := by rw [imagedNames, hq]; rfl
    have hs' := (List.mem_filter.mp hs).1
    simp [promptParts, hN] at hs'
    rcases hs' with rfl | rfl | rfl | rfl | rfl | rfl | rfl
    · split
      · exact append_str_ne_append_of_head _ _ _ _ 'A' 'F' rfl rfl (by decide)
      · exact append_str_ne_append_of_head _ _ _ _ 'A' 'F' rfl rfl (by decide)
    · exact empty_str_ne_append _ _ (by decide)
    · split
      · exact empty_str_ne_append _ _ (by decide)
      · exact append_str_ne_append_of_head _ _ _ _ 'T' 'F' rfl rfl (by decide)
    · split
      · exact str_ne_append_of_head _ _ _ 'U' 'F' rfl rfl (by decide)
      · exact empty_str_ne_append _ _ (by decide)
    · exact append_str_ne_append_of_head _ _ _ _ 'T' 'F' rfl rfl (by decide)
    · exact append_str_ne_append_of_head _ _ _ _ 'U' 'F' rfl rfl (by decide)
    · split
      · exact str_ne_append_of_head _ _ _ 'U' 'F' rfl rfl (by decide)
      · exact empty_str_ne_append _ _ (by decide)
  · intro hq
    have hN : imagedNames chars ≠ "" := imagedNames_ne_empty chars hq
    have hcond : (imagedNames chars != "") = true := bne_iff_ne.mpr hN
    refine List.mem_filter.mpr ⟨?_, ?_⟩
    · simp only [promptParts]
      refine List.mem_cons_of_mem _ ?_
      rw [if_pos hcond]
      exact List.mem_cons_self _ _
    · exact bne_iff_ne.mpr (append_str_ne_empty _ _ (by decide))

/-- Witness for C6: with no qualifying character no part is a Featuring
clause, and with `Hero` (imaged) next to an image-less character the
clause listing exactly the qualifying characters is a prompt part. -/
theorem featuring_clause_exact_witness :
    (∀ s ∈ (promptParts [] [] "" "16:9" "L" "C" none none).filter (fun p => p != ""),
      ∀ t, s ≠ "Featuring characters: " ++ t) ∧
    (("Featuring characters: " ++
        (jsJoin ", " ((([heroChar, ⟨3, "NoImage", none⟩] : List Character).filter
            (fun c => c.image.isSome && jsTrim c.name != "")).map
          (fun c => "(" ++ (jsTrim c.name ++ ")"))) ++ "."))
      ∈ (promptParts [heroChar, ⟨3, "NoImage", none⟩] [] "" "16:9" "L" "C" none none).filter
          (fun p => p != "")) :=
  ⟨(featuring_clause_exact [] [] "" "16:9" "L" "C" none none).1 (by decide),
    (featuring_clause_exact [heroChar, ⟨3, "NoImage", none⟩] [] "" "16:9" "L" "C" none none).2
      (by decide)⟩

theorem splitOnComma_no_comma :
    ∀ (l : List Char), ',' ∉ l → splitOnComma l = [l] := by
  intro l
  induction l with
  | nil => intro _; rfl
  | cons c rest ih =>
    intro h
    have hc : c ≠ ',' := fun e => h (e ▸ List.mem_cons_self _ _)
    have hr : ',' ∉ rest := fun m => h (List.mem_cons_of_mem _ m)
    simp [splitOnComma, hc, ih hr]

theorem splitOnComma_comma_cons (l : List Char) :
    splitOnComma (',' :: l) = [] :: splitOnComma l := by
  simp [splitOnComma]

theorem splitOnComma_append :
    ∀ (l₁ l₂ : List Char), ',' ∉ l₁ →
      ∀ (h₂ : List Char) (t₂ : List (List Char)), splitOnComma l₂ = h₂ :: t₂ →
      splitOnComma (l₁ ++ l₂) = (l₁ ++ h₂) :: t₂ := by
  intro l₁
  induction l₁ with
  | nil => intro l₂ _ h₂ t₂ heq; simpa using heq
  | cons c l₁ ih =>
    intro l₂ h h₂ t₂ heq
    have hc : c ≠ ',' := fun e => h (e ▸ List.mem_cons_self _ _)
    have hr : ',' ∉ l₁ := fun m => h (List.mem_cons_of_mem _ m)
    rw [List.cons_append]
    simp only [splitOnComma, if_neg hc]
    rw [ih l₂ hr h₂ t₂ heq]
    rfl

theorem mem_of_mem_takeWhile (p : Char → Bool) :
    ∀ (l : List Char) (a : Char), a ∈ l.takeWhile p → a ∈ l := by
  intro l
  induction l with
  | nil => intro a ha; simp at ha
  | cons c rest ih =>
    intro a ha
    rw [List.takeWhile_cons] at ha
    by_cases hc : p c = true
    · rw [if_pos hc] at ha
      rcases List.mem_cons.mp ha with rfl | ha'
      · exact List.mem_cons_self _ _
      · exact List.mem_cons_of_mem _ (ih a ha')
    · rw [if_neg hc] at ha
      simp at ha

theorem pred_of_mem_takeWhile (p : Char → Bool) :
    ∀ (l : List Char) (a : Char), a ∈ l.takeWhile p → p a = true := by
  intro l
  induction l with
  | nil => intro a ha; simp at ha
  | cons c rest ih =>
    intro a ha
    rw [List.takeWhile_cons] at ha
    by_cases hc : p c = true
    · rw [if_pos hc] at ha
      rcases List.mem_cons.mp ha with rfl | ha'
      · exact hc
      · exact ih a ha'
    · rw [if_neg hc] at ha
      simp at ha

theorem takeWhile_eq_self_of_all (p : Char → Bool) :
    ∀ (l : List Char), (∀ a ∈ l, p a = true) → l.takeWhile p = l := by
  intro l
  induction l with
  | nil => intro _; rfl
  | cons c rest ih =>
    intro h
    rw [List.takeWhile_cons, if_pos (h c (List.mem_cons_self _ _))]
    rw [ih (fun a ha => h a (List.mem_cons_of_mem _ ha))]

theorem grabGroup_append (m t : List Char)
    (hm : ∀ c ∈ m, jsDotMatches c = true) :
    grabGroup (m ++ ';' :: t) = some (m.takeWhile (fun c => c != ';')) := by
  induction m with
  | nil => simp [grabGroup]
  | cons c m' ih =>
    have hc : jsDotMatches c = true := hm c (List.mem_cons_self _ _)
    have hm' : ∀ c ∈ m', jsDotMatches c = true :=
      fun c' hc' => hm c' (List.mem_cons_of_mem _ hc')
    by_cases hsemi : c = ';'
    · subst hsemi
      simp [grabGroup, List.takeWhile_cons]
    · rw [List.cons_append]
      simp [grabGroup, hsemi, hc, ih hm', List.takeWhile_cons]

theorem matchColonSemi_after_data (X : List Char) :
    matchColonSemi ('d' :: 'a' :: 't' :: 'a' :: ':' :: X)
      = match grabGroup X with
        | some g => some g
        | none => matchColonSemi X := rfl

/-- The shape of a successful parse of a well-behaved data URL: whatever
the media-type segment contains (commas and line terminators excluded),
the parse succeeds with `base64` the full payload and `mimeType` the
media-type segment up to its first semicolon. -/
theorem parse_dataUrl_shape (m p : String)
    (hmc : ∀ c ∈ m.data, c ≠ ',' ∧ jsDotMatches c = true) (hp : ',' ∉ p.data) :
    parseDataUrl ("data:" ++ (m ++ (";base64," ++ p)))
      = some { base64 := some p,
               mimeType := String.mk (m.data.takeWhile (fun c => c != ';')) } := by
  have hdata : ("data:" ++ (m ++ (";base64," ++ p))).data
      = ("data:".data ++ (m.data ++ ";base64".data)) ++ (',' :: p.data) := by
    rw [String.data_append, String.data_append, String.data_append]
    rw [show (";base64," : String).data = ";base64".data ++ [','] from rfl]
    simp [List.append_assoc]
  have hnc : ',' ∉ ("data:".data ++ (m.data ++ ";base64".data)) := by
    intro hmem
    rcases List.mem_append.mp hmem with h | h
    · revert h; decide
    · rcases List.mem_append.mp h with h | h
      · exact (hmc _ h).1 rfl
      · revert h; decide
  have h2 : splitOnComma (',' :: p.data) = [] :: [p.data] := by
    rw [splitOnComma_comma_cons, splitOnComma_no_comma p.data hp]
  have hsplit : splitOnComma ("data:" ++ (m ++ (";base64," ++ p))).data
      = ("data:".data ++ (m.data ++ ";base64".data)) :: [p.data] := by
    rw [hdata, splitOnComma_append _ _ hnc [] [p.data] h2]
    simp
  have hgrab : grabGroup (m.data ++ ";base64".data)
      = some (m.data.takeWhile (fun c => c != ';')) := by
    rw [show (";base64" : String).data = ';' :: "base64".data from rfl]
    exact grabGroup_append m.data "base64".data (fun c hc => (hmc c hc).2)
  have hmatch : matchColonSemi ("data:".data ++ (m.data ++ ";base64".data))
      = some (m.data.takeWhile (fun c => c != ';')) := by
    rw [show ("data:" : String).data = 'd' :: 'a' :: 't' :: 'a' :: [':'] from rfl]
    simp only [List.cons_append, List.nil_append]
    rw [matchColonSemi_after_data, hgrab]
  simp only [parseDataUrl, hsplit, hmatch]
  rfl

/-- C4 (amended): for a data URL `data:` + mediaType + `;base64,` +
payload whose mediaType is non-empty and free of commas and line
terminators and whose payload has no comma, decoding succeeds and
re-decoding the re-encoded record gives the same record; mediaTypes
containing a comma must be excluded, since on them the decode itself
fails. -/
theorem parse_roundtrip (m p : String) (_hm : m ≠ "")
    (hmc : ∀ c ∈ m.data, c ≠ ',' ∧ jsDotMatches c = true) (hp : ',' ∉ p.data) :
    ∃ r, parseDataUrl ("data:" ++ (m ++ (";base64," ++ p))) = some r ∧
      parseDataUrl (encodeImage r) = some r := by
  refine ⟨{ base64 := some p,
            mimeType := String.mk (m.data.takeWhile (fun c => c != ';')) },
    parse_dataUrl_shape m p hmc hp, ?_⟩
  have hmtdata : (String.mk (m.data.takeWhile (fun c => c != ';'))).data
      = m.data.takeWhile (fun c => c != ';') := rfl
  have hsub : ∀ c ∈ (String.mk (m.data.takeWhile (fun c => c != ';'))).data,
      c ≠ ',' ∧ jsDotMatches c = true := by
    intro c hc
    rw [hmtdata] at hc
    exact hmc c (mem_of_mem_takeWhile _ _ _ hc)
  have henc : encodeImage
        { base64 := some p,
          mimeType := String.mk (m.data.takeWhile (fun c => c != ';')) }
      = "data:" ++ (String.mk (m.data.takeWhile (fun c => c != ';')) ++ (";base64," ++ p)) := rfl
  rw [henc, parse_dataUrl_shape _ p hsub hp]
  have hfix : (String.mk (m.data.takeWhile (fun c => c != ';'))).data.takeWhile (fun c => c != ';')
      = m.data.takeWhile (fun c => c != ';') := by
    rw [hmtdata]
    exact takeWhile_eq_self_of_all _ _
      (fun a ha => pred_of_mem_takeWhile (fun c => c != ';') m.data a ha)
  rw [hfix]

/-- C4 counterexample: the string `data:a,b;base64,xyz` has the claimed
shape with the non-empty mediaType `a,b` and comma-free payload `xyz`,
yet decoding it fails outright (the comma inside the mediaType shifts the
split), so no round-trip exists for it. -/
theorem roundtrip_fails_for_comma_mediatype :
    ("data:a,b;base64,xyz" : String) = "data:" ++ ("a,b" ++ (";base64," ++ "xyz")) ∧
    ("a,b" : String) ≠ "" ∧ (',' ∉ ("xyz" : String).data) ∧
    parseDataUrl "data:a,b;base64,xyz" = none := by
  decide

/-- Witness for C4 (amended) at the concrete mediaType `image/png` and
payload `abc`. -/
theorem parse_roundtrip_witness :
    (("image/png" : String) ≠ "") ∧
    (∀ c ∈ ("image/png" : String).data, c ≠ ',' ∧ jsDotMatches c = true) ∧
    (',' ∉ ("abc" : String).data) ∧
    (∃ r, parseDataUrl ("data:" ++ ("image/png" ++ (";base64," ++ "abc"))) = some r ∧
      parseDataUrl (encodeImage r) = some r) :=
  ⟨by decide, by decide, by decide,
    parse_roundtrip "image/png" "abc" (by decide) (by decide) (by decide)⟩

end SceneGen
